import Mathlib

/-!
Verification of the abridge-novel condensation pipeline.

Shallow embedding of the Python sources:
* `Utils` embeds `src/utils.py` (`reduce_until_fit`).
* `ChapterCondensation` embeds `src/chapter_condensation.py` (resume detection
  and the per-chapter processing loop).
* `ArcCondensation` embeds `src/arc_condensation.py` (`compute_arc_ranges`,
  missing-arc detection).
* `NovelCondensation` embeds `src/novel_condensation.py`
  (`split_units_for_output_budget`, `write_manifest`, the multi-part assembly
  in `process_novel`).
* `RunPipeline` embeds `src/run_pipeline.py` (skip-flag validation).

The external token estimator (`estimate_tokens`, backed by `llm/tokenizer.py`)
is abstracted as a parameter `est : String → Nat`; the external LLM compressor
is abstracted as a parameter `condense_fn : String → String`.  Logging
(`print`), cost tracking and guardrail callbacks are observational side
effects that do not influence control flow and are not modelled, except where
a claim is about them.  Filesystem persistence is modelled as explicit state
(lists of optional file contents).
-/

namespace Utils

/-- Python `"\n\n".join(units)` (the `merged_text` construction in
`reduce_until_fit`, `src/utils.py` line 97). -/
def joinUnits : List String → String
  | [] => ""
  | [u] => u
  | u :: rest => u ++ "\n\n" ++ joinUnits rest

/-- Fuel-indexed helper for `chunksOf`.  Each step peels off the slice
`xs[0:g]` and continues on `xs[g:]`; the fuel argument only makes the
recursion structural and is irrelevant once `xs.length ≤ fuel`. -/
def chunksOfFuel {α : Type} (fuel g : Nat) (xs : List α) : List (List α) :=
  match xs, g, fuel with
  | [], _, _ => []
  | _ :: _, 0, _ => []
  | _ :: _, _ + 1, 0 => []
  | x :: rest, g' + 1, fuel' + 1 =>
    (x :: rest).take (g' + 1) ::
      chunksOfFuel fuel' (g' + 1) ((x :: rest).drop (g' + 1))

/-- The positional fixed-size grouping `units[i:i + units_per_group]` for
`i in range(0, len(units), units_per_group)` (`src/utils.py` line 132).
Python raises for a zero step; the pipeline only ever uses
`units_per_group ≥ 2`, and this embedding returns `[]` for `g = 0`. -/
def chunksOf {α : Type} (g : Nat) (xs : List α) : List (List α) :=
  chunksOfFuel xs.length g xs

/-- Index/value pairing starting at a given index: the embedding of
Python's `enumerate` counters (the 1-based `arc_index` of
`compute_arc_ranges`, the 0-based `i` of `split_units_for_output_budget`). -/
def withIndicesFrom {α : Type} (i : Nat) : List α → List (Nat × α)
  | [] => []
  | x :: xs => (i, x) :: withIndicesFrom (i + 1) xs

/-- Outcome of `reduce_until_fit`: a normal return, the
`ValueError("Cannot reduce empty list of units")` raised on empty input
(`src/utils.py` line 94), or exhaustion of the explicit recursion fuel
(the embedding's totality device; the Python function has no such bound). -/
inductive ReduceOutcome where
  | ok (result : String)
  | emptyInput
  | outOfFuel
  deriving DecidableEq, Repr

/-- `reduce_until_fit(units, condense_fn, max_tokens, units_per_group)`
(`src/utils.py` lines 39-184), for a fresh run (no `intermediate_dir`
resume files, so every group is condensed rather than loaded).

Besides the outcome, the embedding returns the list of inputs passed to
`condense_fn`, in call order, and the number of recursive layers executed
(0 when the base case is hit immediately).  `fuel` bounds the recursion
depth; it only produces `outOfFuel` where the Python function would keep
recursing. -/
def reduce_until_fit (est : String → Nat) (condense_fn : String → String)
    (max_tokens units_per_group : Nat) : Nat → List String →
    ReduceOutcome × List String × Nat
  | fuel, units =>
  if units = [] then (.emptyInput, [], 0)
  else
    let merged_text := joinUnits units
    if est merged_text ≤ max_tokens then
      (.ok (condense_fn merged_text), [merged_text], 0)
    else
      let groups := chunksOf units_per_group units
      let group_calls := groups.map joinUnits
      let condensed_groups := group_calls.map condense_fn
      match fuel with
      | 0 => (.outOfFuel, group_calls, 0)
      | fuel' + 1 =>
        let r := reduce_until_fit est condense_fn max_tokens units_per_group
          fuel' condensed_groups
        (r.1, group_calls ++ r.2.1, r.2.2 + 1)

end Utils

namespace ChapterCondensation

/-- The "is this output complete" check of `detect_missing_chapters`
(`src/chapter_condensation.py` lines 148-159): the output file must exist
and `os.path.getsize(output_path) > 0`, i.e. its content is non-empty.
An existing zero-byte output counts as corrupt and the chapter as missing. -/
def chapterDone : Option String → Bool
  | some s => s ≠ ""
  | none => false

/-- The processing loop of `chapter_condensation.process_novel`
(`src/chapter_condensation.py` lines 280-352) over the pairs
`(raw chapter text, existing persisted output)` in sorted filename order.
Chapters classified done by `detect_missing_chapters` keep their persisted
output untouched; each missing chapter costs one compressor invocation
(`condense_chapter`) and its output is persisted.  Returns the final
persisted store (one slot per chapter, in order) and the number of
compressor invocations.  The all-done early return of the Python code
performs the same zero writes and zero calls as processing an empty
missing list. -/
def process_novel (compress : String → String) :
    List (String × Option String) → List (Option String) × Nat
  | [] => ([], 0)
  | (text, slot) :: rest =>
    let r := process_novel compress rest
    if chapterDone slot then (slot :: r.1, r.2)
    else (some (compress text) :: r.1, r.2 + 1)

end ChapterCondensation

namespace ArcCondensation

/-- `CHAPTERS_PER_ARC` (`src/arc_condensation.py` line 14). -/
def CHAPTERS_PER_ARC : Nat := 10

/-- `compute_arc_ranges(chapter_files, chapters_per_arc)`
(`src/arc_condensation.py` lines 46-61): deterministic contiguous grouping
of the sorted chapter files into arcs of `chapters_per_arc` (last arc may
be shorter), with 1-based arc indices. -/
def compute_arc_ranges (chapter_files : List String) (chapters_per_arc : Nat) :
    List (Nat × List String) :=
  Utils.withIndicesFrom 1 (Utils.chunksOf chapters_per_arc chapter_files)

/-- The missing-arc classification of `detect_missing_arcs`
(`src/arc_condensation.py` lines 112-115): expected arc indices minus the
indices with an existing non-empty output, in ascending order (expected
indices are already ascending). -/
def missing_arc_indices (all_arcs : List (Nat × List String))
    (existing : List Nat) : List Nat :=
  (all_arcs.map Prod.fst).filter (fun i => ¬ i ∈ existing)

/-- The processing loop of `arc_condensation.process_novel`
(`src/arc_condensation.py` lines 251-286) invokes `condense_arc` exactly
once per missing arc; this embedding records the invocation count. -/
def arcCompressorCalls (all_arcs : List (Nat × List String))
    (existing : List Nat) : Nat :=
  (missing_arc_indices all_arcs existing).length

end ArcCondensation

namespace NovelCondensation

/-- Sum of per-unit token estimates: the running `current_tokens` of
`split_units_for_output_budget` equals this sum over the current chunk. -/
def sumEst (est : String → Nat) (chunk : List String) : Nat :=
  (chunk.map est).sum

/-- Estimate of the first unit of a chunk (0 for an empty chunk); used to
state the greedy-boundary property of `split_units_for_output_budget`. -/
def headTokens (est : String → Nat) : List String → Nat
  | [] => 0
  | u :: _ => est u

/-- Loop body of `split_units_for_output_budget`
(`src/novel_condensation.py` lines 314-351).  `i` is the 0-based position
of the next unit (used for the oversize warning log), `cur` the
`current_chunk`.  Returns the chunk list and the 0-based indices of units
for which the oversize warning is printed. -/
def splitGo (est : String → Nat) (max_input_tokens : Nat) (i : Nat)
    (cur : List String) : List String → List (List String) × List Nat
  | [] => (if cur.isEmpty then [] else [cur], [])
  | unit :: rest =>
    if max_input_tokens < est unit then
      -- Edge case: single unit exceeds limit; it becomes its own chunk
      -- and the `[OutputChunk] Warning` is printed.
      let r := splitGo est max_input_tokens (i + 1) [] rest
      ((if cur.isEmpty then [] else [cur]) ++ [unit] :: r.1, i :: r.2)
    else if max_input_tokens < sumEst est cur + est unit then
      -- Adding this unit would exceed the limit: finalize current chunk.
      let r := splitGo est max_input_tokens (i + 1) [unit] rest
      ((if cur.isEmpty then [] else [cur]) ++ r.1, r.2)
    else
      -- Add to current chunk.
      splitGo est max_input_tokens (i + 1) (cur ++ [unit]) rest

/-- `split_units_for_output_budget(units, max_input_tokens)`
(`src/novel_condensation.py` lines 284-356), with the token estimator
abstracted as `est`.  The Python early return for empty `units` coincides
with the loop producing no chunks. -/
def split_units_for_output_budget (est : String → Nat)
    (max_input_tokens : Nat) (units : List String) :
    List (List String) × List Nat :=
  splitGo est max_input_tokens 0 [] units

/-- Values of the JSON manifest written by `write_manifest`. -/
inductive JVal where
  | str (s : String)
  | num (n : Nat)
  | arr (xs : List String)
  deriving DecidableEq, Repr

/-- `SAFE_OUTPUT_TOKEN_BUDGET` default (`src/novel_condensation.py` line 25). -/
def SAFE_OUTPUT_TOKEN_BUDGET : Nat := 55000

/-- `write_manifest(output_dir, parts, generation_strategy)`
(`src/novel_condensation.py` lines 437-472): the JSON object dumped to
`manifest.json`, as an ordered key/value list.  `parts` is the list of
`(filename, content)` pairs produced by the run.  The float field
`estimated_compression_ratio` (the constant 0.45) is omitted from the
embedding: no claim concerns it and floating point is outside the model. -/
def write_manifest (parts : List (String × String))
    (generation_strategy : String) : List (String × JVal) :=
  [("type", .str "novel_condensation"),
   ("parts", .num parts.length),
   ("order", .arr (parts.map Prod.fst)),
   ("generation_strategy", .str generation_strategy),
   ("prompt", .str "BASE_CONDENSATION_PROMPT"),
   ("output_token_budget", .num SAFE_OUTPUT_TOKEN_BUDGET)]

/-- The combined convenience file `novel.condensed.txt` written in the
multi-part branch of `process_novel` (`src/novel_condensation.py` line 630):
`"\n\n".join(content for _, content in output_parts)`. -/
def combinedContent (parts : List (String × String)) : String :=
  Utils.joinUnits (parts.map Prod.snd)

end NovelCondensation

namespace RunPipeline

/-- Filesystem facts `run_pipeline`'s validation functions observe:
directory existence and `_count_files` results per stage
(`src/run_pipeline.py` lines 107-211). `novelFileSize` is the size of
`novel.condensed.txt` when it exists. -/
structure PipelineEnv where
  rawDirExists : Bool
  chaptersDirExists : Bool
  rawCount : Nat
  condensedChapterCount : Nat
  arcsDirExists : Bool
  arcCount : Nat
  novelDirExists : Bool
  novelFileExists : Bool
  novelFileSize : Nat
  deriving DecidableEq, Repr

/-- `validate_chapter_outputs` (`src/run_pipeline.py` lines 114-153). -/
def validate_chapter_outputs (env : PipelineEnv) : Bool × String :=
  if !env.rawDirExists then (false, "Raw directory not found")
  else if !env.chaptersDirExists then
    (false, "Condensed chapters directory not found")
  else if env.rawCount = 0 then (false, "No raw chapter files found")
  else if env.condensedChapterCount = 0 then
    (false, "No condensed chapter files found")
  else if env.condensedChapterCount ≠ env.rawCount then
    (false, "Chapter count mismatch: " ++ toString env.rawCount ++
      " raw chapters, " ++ toString env.condensedChapterCount ++
      " condensed chapters. Cannot safely skip - outputs may be incomplete.")
  else (true, "Found " ++ toString env.condensedChapterCount ++
    " condensed chapters (matching " ++ toString env.rawCount ++ " raw)")

/-- `validate_arc_outputs` (`src/run_pipeline.py` lines 156-182).  Note the
source comment: arc count is NOT validated against the expected count;
only directory existence and at least one arc file are checked. -/
def validate_arc_outputs (env : PipelineEnv) : Bool × String :=
  if !env.arcsDirExists then (false, "Condensed arcs directory not found")
  else if env.arcCount = 0 then (false, "No condensed arc files found")
  else (true, "Found " ++ toString env.arcCount ++ " condensed arcs")

/-- `validate_novel_outputs` (`src/run_pipeline.py` lines 185-211). -/
def validate_novel_outputs (env : PipelineEnv) : Bool × String :=
  if !env.novelDirExists then
    (false, "Novel condensation directory not found")
  else if !env.novelFileExists then
    (false, "Novel condensation file not found")
  else if env.novelFileSize = 0 then
    (false, "Novel condensation file is empty")
  else (true, "Found novel condensation")

/-- How a stage ended in `run_pipeline`: executed, or skipped after its
validation succeeded. -/
inductive StageExec where
  | ran
  | skippedReuse
  deriving DecidableEq, Repr

/-- One stage's skip/validate/execute step of `run_pipeline`
(`src/run_pipeline.py` lines 274-360): with the skip flag set, a failed
validation raises `ValueError` (modelled as `Except.error` with the message
instructing the user to remove the flag or fix outputs manually); a passing
validation reuses the outputs; without the flag the stage body executes. -/
def stageStep (skip : Bool) (validation : Bool × String)
    (flagName stageName : String) : Except String StageExec :=
  if skip then
    if validation.1 then .ok .skippedReuse
    else .error ("Cannot skip " ++ stageName ++ " - validation failed: " ++
      validation.2 ++ "\nRemove " ++ flagName ++
      " flag to regenerate, or fix outputs manually.")
  else .ok .ran

def run_pipeline (skip_chapters skip_arcs skip_novel : Bool)
    (env : PipelineEnv) : Except String (StageExec × StageExec × StageExec) :=
  match stageStep skip_chapters (validate_chapter_outputs env)
      "--skip-chapters" "chapters" with
  | .error e => .error e
  | .ok ch =>
    match stageStep skip_arcs (validate_arc_outputs env)
        "--skip-arcs" "arcs" with
    | .error e => .error e
    | .ok ar =>
      match stageStep skip_novel (validate_novel_outputs env)
          "--skip-novel" "novel" with
      | .error e => .error e
      | .ok nv => .ok (ch, ar, nv)

end RunPipeline

namespace Utils

theorem chunksOfFuel_nil {α : Type} (f g : Nat) :
    chunksOfFuel f g ([] : List α) = [] := by
  cases f <;> cases g <;> rfl

theorem chunksOfFuel_zero_group {α : Type} (f : Nat) (xs : List α) :
    chunksOfFuel f 0 xs = [] := by
  cases f <;> cases xs <;> rfl

theorem chunksOfFuel_congr {α : Type} :
    ∀ (f₁ f₂ g : Nat) (xs : List α), xs.length ≤ f₁ → xs.length ≤ f₂ →
      chunksOfFuel f₁ g xs = chunksOfFuel f₂ g xs := by
  intro f₁
  induction f₁ with
  | zero =>
    intro f₂ g xs h₁ _
    have hxs : xs = [] := List.eq_nil_of_length_eq_zero (Nat.le_zero.mp h₁)
    subst hxs
    rw [chunksOfFuel_nil, chunksOfFuel_nil]
  | succ f₁' ih =>
    intro f₂ g xs h₁ h₂
    match xs, g with
    | [], _ => rw [chunksOfFuel_nil, chunksOfFuel_nil]
    | x :: rest, 0 => rw [chunksOfFuel_zero_group, chunksOfFuel_zero_group]
    | x :: rest, g' + 1 =>
      match f₂ with
      | 0 => exact absurd h₂ (by simp)
      | f₂' + 1 =>
        simp only [List.length_cons] at h₁ h₂
        simp only [chunksOfFuel]
        refine congrArg _ (ih f₂' (g' + 1) _ ?_ ?_) <;>
          simp only [List.drop_succ_cons, List.length_drop] <;> omega

theorem chunksOf_nil {α : Type} (g : Nat) : chunksOf g ([] : List α) = [] := by
  cases g <;> rfl

theorem chunksOf_cons {α : Type} (g : Nat) (hg : 0 < g) (xs : List α)
    (hxs : xs ≠ []) :
    chunksOf g xs = xs.take g :: chunksOf g (xs.drop g) := by
  match g, xs with
  | g' + 1, x :: rest =>
    show chunksOfFuel (x :: rest).length (g' + 1) (x :: rest) = _
    have hlen : (x :: rest).length = rest.length + 1 := by simp
    rw [hlen]
    simp only [chunksOfFuel]
    refine congrArg _ ?_
    exact chunksOfFuel_congr rest.length _ (g' + 1) _
      (by simp only [List.drop_succ_cons, List.length_drop]; omega)
      (Nat.le_refl _)

theorem chunksOf_length {α : Type} (g : Nat) (hg : 0 < g) :
    ∀ (xs : List α), (chunksOf g xs).length = (xs.length + g - 1) / g := by
  have H : ∀ (n : Nat) (xs : List α), xs.length = n →
      (chunksOf g xs).length = (xs.length + g - 1) / g := by
    intro n
    induction n using Nat.strong_induction_on with
    | _ n ih =>
      intro xs hxs
      match xs with
      | [] =>
        rw [chunksOf_nil]
        have : (0 + g - 1) / g = 0 := Nat.div_eq_of_lt (by omega)
        simpa using this.symm
      | x :: rest =>
        rw [chunksOf_cons g hg _ (by simp)]
        have hdrop : ((x :: rest).drop g).length = (x :: rest).length - g := by
          simp [List.length_drop]
        have hlt : ((x :: rest).drop g).length < n := by
          rw [hdrop]; simp only [List.length_cons] at hxs ⊢; omega
        have hrec := ih _ hlt ((x :: rest).drop g) rfl
        simp only [List.length_cons, hrec, hdrop]
        rcases Nat.lt_or_ge (rest.length + 1) g with hcase | hcase
        · -- the whole list fits in one chunk
          have h₁ : rest.length + 1 - g = 0 := by omega
          have h₂ : (0 + g - 1) / g = 0 := Nat.div_eq_of_lt (by omega)
          have h₃ : (rest.length + 1 + g - 1) / g = 1 := by
            rw [Nat.div_eq_of_lt_le] <;> omega
          rw [h₁, h₂, h₃]
        · -- at least one later chunk exists
          have h₁ : rest.length + 1 - g + g - 1 = rest.length + 1 - 1 := by omega
          have h₂ : rest.length + 1 + g - 1 = (rest.length + 1 - 1) + g := by
            omega
          rw [h₁, h₂, Nat.add_div_right _ hg]
  exact fun xs => H xs.length xs rfl

theorem reduce_until_fit_empty (est : String → Nat) (c : String → String)
    (maxT g fuel : Nat) :
    reduce_until_fit est c maxT g fuel [] = (.emptyInput, [], 0) := by
  cases fuel <;> rfl

theorem reduce_until_fit_base (est : String → Nat) (c : String → String)
    (maxT g : Nat) (units : List String) (hne : ¬ units = [])
    (hfit : est (joinUnits units) ≤ maxT) (fuel : Nat) :
    reduce_until_fit est c maxT g fuel units =
      (.ok (c (joinUnits units)), [joinUnits units], 0) := by
  cases fuel <;>
    · show (if units = [] then _ else _) = _
      rw [if_neg hne]
      simp only [if_pos hfit]

theorem reduce_until_fit_step (est : String → Nat) (c : String → String)
    (maxT g : Nat) (units : List String) (hne : ¬ units = [])
    (hbig : ¬ est (joinUnits units) ≤ maxT) (fuel : Nat) :
    reduce_until_fit est c maxT g (fuel + 1) units =
      (let group_calls := (chunksOf g units).map joinUnits
       let r := reduce_until_fit est c maxT g fuel (group_calls.map c)
       (r.1, group_calls ++ r.2.1, r.2.2 + 1)) := by
  show (if units = [] then _ else _) = _
  rw [if_neg hne]
  simp only [if_neg hbig]

theorem reduce_until_fit_fuel_zero (est : String → Nat) (c : String → String)
    (maxT g : Nat) (units : List String) (hne : ¬ units = [])
    (hbig : ¬ est (joinUnits units) ≤ maxT) :
    reduce_until_fit est c maxT g 0 units =
      (.outOfFuel, (chunksOf g units).map joinUnits, 0) := by
  show (if units = [] then _ else _) = _
  rw [if_neg hne]
  simp only [if_neg hbig]

end Utils

/-- **C8.** `reduce_until_fit` fails with the empty-input error
(`ValueError("Cannot reduce empty list of units")`, the spec's
`EmptyInputError`) when called with an empty list of units, invoking the
compressor zero times (the recorded call list is empty) and producing no
return value for any estimator, compressor, budget, group size and
recursion depth. -/
theorem C8_empty_input_error (est : String → Nat) (condense_fn : String → String)
    (max_tokens units_per_group fuel : Nat) :
    Utils.reduce_until_fit est condense_fn max_tokens units_per_group fuel [] =
      (.emptyInput, [], 0) :=
  Utils.reduce_until_fit_empty est condense_fn max_tokens units_per_group fuel

/-- **C4.** For the compressor that echoes its input verbatim and any token
limit at least the merged input's estimate,
`reduce_until_fit(["A","B","C","D","E"], echo, max_tokens, 2)` makes exactly
one compressor call, on `"A\n\nB\n\nC\n\nD\n\nE"`, and returns exactly that
string: the units joined in original order with the `"\n\n"` delimiter. -/
theorem C4_order_preservation (est : String → Nat) (max_tokens fuel : Nat)
    (hfit : est "A\n\nB\n\nC\n\nD\n\nE" ≤ max_tokens) :
    Utils.reduce_until_fit est id max_tokens 2 fuel ["A", "B", "C", "D", "E"] =
      (.ok "A\n\nB\n\nC\n\nD\n\nE", ["A\n\nB\n\nC\n\nD\n\nE"], 0) := by
  have hjoin : Utils.joinUnits ["A", "B", "C", "D", "E"] =
      "A\n\nB\n\nC\n\nD\n\nE" := by rfl
  have := Utils.reduce_until_fit_base est id max_tokens 2
    ["A", "B", "C", "D", "E"] (by simp) (by rw [hjoin]; exact hfit) fuel
  rw [this, hjoin]
  rfl

/-- Witness for C4 at `est = String.length`, `max_tokens = 1000`. -/
theorem C4_order_preservation_witness :
    Utils.reduce_until_fit String.length id 1000 2 7 ["A", "B", "C", "D", "E"] =
      (.ok "A\n\nB\n\nC\n\nD\n\nE", ["A\n\nB\n\nC\n\nD\n\nE"], 0) :=
  C4_order_preservation String.length 1000 7 (by decide)

/-- **C1, counterexample.** With `est` the string length, budget 5 and group
size 10, `reduce_until_fit(["aaaa","bbbb"], f, 5, 10)` makes its first
compressor call on the merged group `"aaaa\n\nbbbb"`, whose estimate 10
exceeds the budget 5 and which is not a single original unit: the recursive
case groups by fixed count without any per-group budget check, so the claimed
budget invariant fails (and no warning applies, as this is a two-unit group). -/
theorem C1_budget_counterexample :
    (Utils.reduce_until_fit String.length (fun _ => "x") 5 10 3
        ["aaaa", "bbbb"]).2.1 = ["aaaa\n\nbbbb", "x"] ∧
    5 < String.length "aaaa\n\nbbbb" ∧
    ¬ "aaaa\n\nbbbb" ∈ (["aaaa", "bbbb"] : List String) := by
  decide

/-- **C1, amended.** What does hold: whenever `reduce_until_fit` returns
normally, the final compressor call (the base-case call) receives an input
whose estimate is at most `max_tokens`, and its output is returned verbatim.
Group calls made in recursive layers carry no such guarantee (see the
counterexample), and the oversized-single-unit condition is not specially
logged by `reduce_until_fit`. -/
theorem C1_base_case_call_within_budget (est : String → Nat)
    (condense_fn : String → String) (max_tokens units_per_group : Nat) :
    ∀ (fuel : Nat) (units : List String) (r : String) (calls : List String)
      (layers : Nat),
      Utils.reduce_until_fit est condense_fn max_tokens units_per_group fuel
          units = (.ok r, calls, layers) →
      ∃ last, calls.getLast? = some last ∧ est last ≤ max_tokens ∧
        r = condense_fn last := by
  intro fuel
  induction fuel with
  | zero =>
    intro units r calls layers h
    rcases h0 : decide (units = []) with _ | _
    · have hne : ¬ units = [] := of_decide_eq_false h0
      rcases hfit : decide (est (Utils.joinUnits units) ≤ max_tokens) with _ | _
      · rw [Utils.reduce_until_fit_fuel_zero est condense_fn max_tokens
          units_per_group units hne (of_decide_eq_false hfit)] at h
        exact absurd (congrArg (fun p => p.1) h) (by simp)
      · rw [Utils.reduce_until_fit_base est condense_fn max_tokens
          units_per_group units hne (of_decide_eq_true hfit) 0] at h
        have h₁ := congrArg (fun p => p.1) h
        have h₂ := congrArg (fun p => p.2.1) h
        simp only at h₁ h₂
        refine ⟨Utils.joinUnits units, ?_, of_decide_eq_true hfit, ?_⟩
        · rw [← h₂]; rfl
        · have : condense_fn (Utils.joinUnits units) = r := by injection h₁
          exact this.symm
    · have he : units = [] := of_decide_eq_true h0
      rw [he, Utils.reduce_until_fit_empty] at h
      exact absurd (congrArg (fun p => p.1) h) (by simp)
  | succ fuel' ih =>
    intro units r calls layers h
    rcases h0 : decide (units = []) with _ | _
    · have hne : ¬ units = [] := of_decide_eq_false h0
      rcases hfit : decide (est (Utils.joinUnits units) ≤ max_tokens) with _ | _
      · rw [Utils.reduce_until_fit_step est condense_fn max_tokens
          units_per_group units hne (of_decide_eq_false hfit) fuel'] at h
        simp only at h
        have h₁ := congrArg (fun p => p.1) h
        have h₂ := congrArg (fun p => p.2.1) h
        simp only at h₁ h₂
        obtain ⟨last, hlast, hle, hr⟩ := ih _ _ _ _
          (Prod.ext h₁ (Prod.ext rfl rfl))
        refine ⟨last, ?_, hle, hr⟩
        rw [← h₂, List.getLast?_append, hlast]
        rfl
      · rw [Utils.reduce_until_fit_base est condense_fn max_tokens
          units_per_group units hne (of_decide_eq_true hfit) (fuel' + 1)] at h
        have h₁ := congrArg (fun p => p.1) h
        have h₂ := congrArg (fun p => p.2.1) h
        simp only at h₁ h₂
        refine ⟨Utils.joinUnits units, ?_, of_decide_eq_true hfit, ?_⟩
        · rw [← h₂]; rfl
        · have : condense_fn (Utils.joinUnits units) = r := by injection h₁
          exact this.symm
    · have he : units = [] := of_decide_eq_true h0
      rw [he, Utils.reduce_until_fit_empty] at h
      exact absurd (congrArg (fun p => p.1) h) (by simp)

/-- Witness for the amended C1 on a concrete run forced through one
recursive layer. -/
theorem C1_base_case_call_within_budget_witness :
    ∃ last, (["aaaa\n\nbbbb", "x"] : List String).getLast? = some last ∧
      String.length last ≤ 5 ∧ "x" = (fun _ => "x") last :=
  C1_base_case_call_within_budget String.length (fun _ => "x") 5 10 3
    ["aaaa", "bbbb"] "x" ["aaaa\n\nbbbb", "x"] 1 (by decide)

/-- **C2, counterexample.** The compressor dropping the first character
strictly shortens every non-empty input — in particular each of the three
inputs it receives in this run, `"aaaa"`, `"aaa"` and `"aa"` — yet on the
single unit `"aaaa"` with budget 2 and `group_size = 2`, `reduce_until_fit`
performs 2 compressor-call layers before reaching the base case, while the
claimed bound is `ceil(log_2 1) = 0`: a single unit over budget forms a
group of one and is re-condensed layer after layer, so the unit count does
not shrink by a factor of `group_size`. -/
theorem C2_layer_bound_counterexample :
    (Utils.reduce_until_fit String.length (fun s => String.mk s.data.tail)
        2 2 5 ["aaaa"]).2.1 = ["aaaa", "aaa", "aa"] ∧
    ((fun s => String.mk s.data.tail) "aaaa").length <
      String.length "aaaa" ∧
    ((fun s => String.mk s.data.tail) "aaa").length <
      String.length "aaa" ∧
    ((fun s => String.mk s.data.tail) "aa").length <
      String.length "aa" ∧
    (Utils.reduce_until_fit String.length (fun s => String.mk s.data.tail)
        2 2 5 ["aaaa"]).2.2 = 2 ∧
    Nat.clog 2 (["aaaa"] : List String).length = 0 := by
  refine ⟨by decide, by decide, by decide, by decide, by decide, ?_⟩
  exact Nat.clog_one_right 2

/-- **C2, amended.** For `group_size ≥ 2` and a compressor whose outputs
always fit the input budget (by the estimator), `reduce_until_fit`
terminates (with recursion depth at most the number of units) and performs
at most `max (ceil(log_{group_size} N)) 1` compressor-call layers: each
layer with at least two groups shrinks the unit count by a factor of
`group_size`, and a layer reduced to a single unit can add one extra layer
beyond `ceil(log_{group_size} N)` (which the original bound misses).  A
merely "strictly shortening" compressor does not bound the layer count. -/
theorem C2_layer_bound_amended (est : String → Nat)
    (condense_fn : String → String) (max_tokens units_per_group : Nat)
    (hg : 2 ≤ units_per_group)
    (hout : ∀ s, est (condense_fn s) ≤ max_tokens) :
    ∀ (fuel : Nat) (units : List String), units ≠ [] → units.length ≤ fuel →
      ∃ r calls layers,
        Utils.reduce_until_fit est condense_fn max_tokens units_per_group fuel
            units = (.ok r, calls, layers) ∧
        layers ≤ max (Nat.clog units_per_group units.length) 1 := by
  intro fuel
  induction fuel with
  | zero =>
    intro units hne hlen
    exact absurd (List.eq_nil_of_length_eq_zero (Nat.le_zero.mp hlen)) hne
  | succ fuel' ih =>
    intro units hne hlen
    by_cases hfit : est (Utils.joinUnits units) ≤ max_tokens
    · exact ⟨_, _, _,
        Utils.reduce_until_fit_base est condense_fn max_tokens units_per_group
          units hne hfit _, Nat.zero_le _⟩
    · have hg0 : 0 < units_per_group := by omega
      have hn1 : 1 ≤ units.length :=
        Nat.one_le_iff_ne_zero.mpr (fun h => hne (List.eq_nil_of_length_eq_zero h))
      rw [Utils.reduce_until_fit_step est condense_fn max_tokens units_per_group
        units hne hfit fuel']
      simp only
      have hgc : ((Utils.chunksOf units_per_group units).map Utils.joinUnits).length
          = (units.length + units_per_group - 1) / units_per_group := by
        rw [List.length_map, Utils.chunksOf_length units_per_group hg0]
      have hm1 : 1 ≤ (units.length + units_per_group - 1) / units_per_group := by
        rw [Nat.le_div_iff_mul_le hg0]
        omega
      by_cases hone : (units.length + units_per_group - 1) / units_per_group = 1
      · -- a single group: its condensed output fits, so exactly one more layer
        obtain ⟨b, hb⟩ := List.length_eq_one.mp (hgc.trans hone)
        rw [hb]
        have hbase := Utils.reduce_until_fit_base est condense_fn max_tokens
          units_per_group [condense_fn b] (by simp)
          (by show est (condense_fn b) ≤ max_tokens; exact hout b) fuel'
        refine ⟨condense_fn (condense_fn b), [b, condense_fn b], 1, ?_,
          le_max_right _ 1⟩
        simp only [List.map_cons, List.map_nil]
        rw [hbase]
        rfl
      · -- at least two groups: the unit count shrinks; apply the IH
        have hm2 : 2 ≤ (units.length + units_per_group - 1) / units_per_group := by
          omega
        have h2g : 2 * units_per_group ≤ units.length + units_per_group - 1 :=
          (Nat.le_div_iff_mul_le hg0).mp hm2
        have hn2 : 2 ≤ units.length := by omega
        have hprod : units.length + units_per_group - 1 <
            units.length * units_per_group := by
          obtain ⟨a, ha⟩ : ∃ a, units.length = a + 2 :=
            ⟨units.length - 2, by omega⟩
          obtain ⟨b, hb⟩ : ∃ b, units_per_group = b + 2 :=
            ⟨units_per_group - 2, by omega⟩
          rw [ha, hb, show (a + 2) * (b + 2) = a * b + 2 * a + 2 * b + 4 by ring]
          omega
        have hmn : (units.length + units_per_group - 1) / units_per_group <
            units.length := (Nat.div_lt_iff_lt_mul hg0).mpr hprod
        obtain ⟨r, calls', L', hred, hL⟩ := ih
          (((Utils.chunksOf units_per_group units).map Utils.joinUnits).map
            condense_fn)
          (by
            intro hnil
            have hlen0 := congrArg List.length hnil
            simp only [List.length_map, List.length_nil] at hlen0
            simp only [List.length_map] at hgc
            omega)
          (by rw [List.length_map, hgc]; omega)
        refine ⟨r, (Utils.chunksOf units_per_group units).map Utils.joinUnits ++
          calls', L' + 1, ?_, ?_⟩
        · rw [hred]
        · rw [List.length_map, hgc] at hL
          have hpos : 1 ≤ Nat.clog units_per_group
              ((units.length + units_per_group - 1) / units_per_group) :=
            Nat.clog_pos (by omega) hm2
          rw [Nat.max_eq_left hpos] at hL
          have hclog : Nat.clog units_per_group units.length =
              Nat.clog units_per_group
                ((units.length + units_per_group - 1) / units_per_group) + 1 :=
            Nat.clog_of_two_le (by omega) hn2
          rw [Nat.max_eq_left (by omega : 1 ≤ Nat.clog units_per_group units.length)]
          omega

/-- Witness for the amended C2: two units, group size 2, a constant
compressor whose output always fits the budget. -/
theorem C2_layer_bound_amended_witness :
    ∃ r calls layers,
      Utils.reduce_until_fit String.length (fun _ => "x") 5 2 2
          ["aaaaaaaa", "bbb"] = (.ok r, calls, layers) ∧
      layers ≤ max (Nat.clog 2 (["aaaaaaaa", "bbb"] : List String).length) 1 :=
  C2_layer_bound_amended String.length (fun _ => "x") 5 2 (by decide)
    (by intro s; show String.length "x" ≤ 5; decide) 2 ["aaaaaaaa", "bbb"]
    (by decide) (by decide)

/-- **C3, counterexample.** The claim quantifies over every fixed
deterministic compressor, but for the compressor that returns the empty
string a completed first run persists a zero-byte output, which
`detect_missing_chapters` classifies as corrupt: the second run then
invokes the compressor once, not zero times.  (The store is still left
byte-identical; only the zero-invocations part fails.) -/
theorem C3_idempotence_counterexample :
    ChapterCondensation.process_novel (fun _ => "") [("c", none)] =
      ([some ""], 1) ∧
    (ChapterCondensation.process_novel (fun _ => "")
        (["c"].zip
          (ChapterCondensation.process_novel (fun _ => "") [("c", none)]).1)).2
      = 1 := by
  decide

/-- **C3, amended.** For any corpus and any deterministic compressor that
never returns the empty string, re-running the chapter stage on the store
left by a completed run invokes the compressor zero times and leaves every
persisted output byte-identical; and a chapter whose persisted output
exists but is empty (zero bytes) is classified as corrupt/missing and is
reprocessed rather than skipped. -/
theorem C3_idempotence_amended (compress : String → String)
    (hnonempty : ∀ t, compress t ≠ "") :
    (∀ (pairs : List (String × Option String)),
      ChapterCondensation.process_novel compress
          ((pairs.map Prod.fst).zip
            (ChapterCondensation.process_novel compress pairs).1) =
        ((ChapterCondensation.process_novel compress pairs).1, 0)) ∧
    (∀ (t : String) (rest : List (String × Option String)),
      ChapterCondensation.process_novel compress ((t, some "") :: rest) =
        (some (compress t) ::
            (ChapterCondensation.process_novel compress rest).1,
          (ChapterCondensation.process_novel compress rest).2 + 1)) := by
  have hdone_of_ne : ∀ s : String, s ≠ "" →
      ChapterCondensation.chapterDone (some s) = true := by
    intro s hs
    simp [ChapterCondensation.chapterDone, hs]
  have hcons : ∀ (t : String) (slot : Option String)
      (rest : List (String × Option String)),
      ChapterCondensation.process_novel compress ((t, slot) :: rest) =
        if ChapterCondensation.chapterDone slot then
          ((slot :: (ChapterCondensation.process_novel compress rest).1),
            (ChapterCondensation.process_novel compress rest).2)
        else
          ((some (compress t) ::
              (ChapterCondensation.process_novel compress rest).1),
            (ChapterCondensation.process_novel compress rest).2 + 1) := by
    intro t slot rest
    rfl
  constructor
  · intro pairs
    induction pairs with
    | nil => rfl
    | cons p rest ih =>
      obtain ⟨t, slot⟩ := p
      rcases hdone : ChapterCondensation.chapterDone slot with _ | _
      · -- chapter was missing: the first run stores `compress t`,
        -- which is non-empty, so the second run keeps it untouched
        rw [hcons, hdone]
        simp only [Bool.false_eq_true, if_false, List.map_cons,
          List.zip_cons_cons]
        rw [hcons, hdone_of_ne _ (hnonempty t)]
        simp only [if_true, ih]
      · -- chapter was already done (non-empty output): kept both times
        rw [hcons, hdone]
        simp only [if_true, List.map_cons, List.zip_cons_cons]
        rw [hcons, hdone]
        simp only [if_true, ih]
  · intro t rest
    rfl

/-- Witness for the amended C3: one missing and one done chapter, a
constant non-empty compressor; the second run is a no-op with zero calls. -/
theorem C3_idempotence_amended_witness :
    ChapterCondensation.process_novel (fun _ => "x")
        ((["c1", "c2"] : List String).zip
          (ChapterCondensation.process_novel (fun _ => "x")
            [("c1", none), ("c2", some "done")]).1) =
      ((ChapterCondensation.process_novel (fun _ => "x")
          [("c1", none), ("c2", some "done")]).1, 0) :=
  (C3_idempotence_amended (fun _ => "x")
    (by intro t; show ("x" : String) ≠ ""; decide)).1
    [("c1", none), ("c2", some "done")]

namespace NovelCondensation

theorem splitGo_join (est : String → Nat) (m : Nat) :
    ∀ (us : List String) (i : Nat) (cur : List String),
      ((splitGo est m i cur us).1).flatten = cur ++ us := by
  intro us
  induction us with
  | nil =>
    intro i cur
    cases cur <;> rfl
  | cons u rest ih =>
    intro i cur
    by_cases h1 : m < est u
    · simp only [splitGo, if_pos h1]
      cases cur with
      | nil => simp [ih (i + 1) []]
      | cons x xs => simp [ih (i + 1) []]
    · by_cases h2 : m < sumEst est cur + est u
      · simp only [splitGo, if_neg h1, if_pos h2]
        cases cur with
        | nil => simp [ih (i + 1) [u]]
        | cons x xs => simp [ih (i + 1) [u]]
      · simp only [splitGo, if_neg h1, if_neg h2]
        rw [ih (i + 1) (cur ++ [u])]
        simp

theorem splitGo_chunks_ne_nil (est : String → Nat) (m : Nat) :
    ∀ (us : List String) (i : Nat) (cur : List String),
      ∀ c ∈ (splitGo est m i cur us).1, c ≠ [] := by
  intro us
  induction us with
  | nil =>
    intro i cur c hc
    cases cur with
    | nil => simp [splitGo] at hc
    | cons x xs =>
      simp [splitGo] at hc
      simp [hc]
  | cons u rest ih =>
    intro i cur c hc
    by_cases h1 : m < est u
    · simp only [splitGo, if_pos h1, List.mem_append, List.mem_cons] at hc
      rcases hc with hc | hc | hc
      · cases cur with
        | nil => simp at hc
        | cons x xs =>
          simp at hc
          simp [hc]
      · simp [hc]
      · exact ih (i + 1) [] c hc
    · by_cases h2 : m < sumEst est cur + est u
      · simp only [splitGo, if_neg h1, if_pos h2, List.mem_append] at hc
        rcases hc with hc | hc
        · cases cur with
          | nil => simp at hc
          | cons x xs =>
            simp at hc
            simp [hc]
        · exact ih (i + 1) [u] c hc
      · simp only [splitGo, if_neg h1, if_neg h2] at hc
        exact ih (i + 1) (cur ++ [u]) c hc

theorem splitGo_budget (est : String → Nat) (m : Nat) :
    ∀ (us : List String) (i : Nat) (cur : List String),
      sumEst est cur ≤ m →
      ∀ c ∈ (splitGo est m i cur us).1, 2 ≤ c.length → sumEst est c ≤ m := by
  intro us
  induction us with
  | nil =>
    intro i cur hcur c hc _
    cases cur with
    | nil => simp [splitGo] at hc
    | cons x xs =>
      simp [splitGo] at hc
      subst hc; exact hcur
  | cons u rest ih =>
    intro i cur hcur c hc hlen
    by_cases h1 : m < est u
    · simp only [splitGo, if_pos h1, List.mem_append, List.mem_cons] at hc
      rcases hc with hc | hc | hc
      · cases cur with
        | nil => simp at hc
        | cons x xs =>
          simp at hc
          subst hc; exact hcur
      · rw [hc] at hlen
        simp at hlen
      · exact ih (i + 1) [] (by simp [sumEst]) c hc hlen
    · by_cases h2 : m < sumEst est cur + est u
      · simp only [splitGo, if_neg h1, if_pos h2, List.mem_append] at hc
        rcases hc with hc | hc
        · cases cur with
          | nil => simp at hc
          | cons x xs =>
            simp at hc
            subst hc; exact hcur
        · refine ih (i + 1) [u] ?_ c hc hlen
          simp only [sumEst, List.map_cons, List.map_nil, List.sum_cons,
            List.sum_nil, Nat.add_zero]
          omega
      · simp only [splitGo, if_neg h1, if_neg h2] at hc
        refine ih (i + 1) (cur ++ [u]) ?_ c hc hlen
        simp only [sumEst, List.map_append, List.sum_append, List.map_cons,
          List.map_nil, List.sum_cons, List.sum_nil, Nat.add_zero]
        simp only [sumEst] at hcur h2
        omega

theorem splitGo_oversized (est : String → Nat) (m : Nat) :
    ∀ (us : List String) (i : Nat) (cur : List String),
      (∀ u ∈ cur, est u ≤ m) →
      ∀ c ∈ (splitGo est m i cur us).1, ∀ u ∈ c, m < est u → c = [u] := by
  intro us
  induction us with
  | nil =>
    intro i cur hcur c hc u hu hbig
    cases cur with
    | nil => simp [splitGo] at hc
    | cons x xs =>
      simp [splitGo] at hc
      subst hc
      exact absurd hbig (Nat.not_lt.mpr (hcur u hu))
  | cons u0 rest ih =>
    intro i cur hcur c hc u hu hbig
    by_cases h1 : m < est u0
    · simp only [splitGo, if_pos h1, List.mem_append, List.mem_cons] at hc
      rcases hc with hc | hc | hc
      · cases cur with
        | nil => simp at hc
        | cons x xs =>
          simp at hc
          subst hc
          exact absurd hbig (Nat.not_lt.mpr (hcur u hu))
      · subst hc
        simp only [List.mem_singleton] at hu
        rw [hu]
      · exact ih (i + 1) [] (by simp) c hc u hu hbig
    · by_cases h2 : m < sumEst est cur + est u0
      · simp only [splitGo, if_neg h1, if_pos h2, List.mem_append] at hc
        rcases hc with hc | hc
        · cases cur with
          | nil => simp at hc
          | cons x xs =>
            simp at hc
            subst hc
            exact absurd hbig (Nat.not_lt.mpr (hcur u hu))
        · refine ih (i + 1) [u0] ?_ c hc u hu hbig
          intro v hv
          simp only [List.mem_singleton] at hv
          rw [hv]
          omega
      · simp only [splitGo, if_neg h1, if_neg h2] at hc
        refine ih (i + 1) (cur ++ [u0]) ?_ c hc u hu hbig
        intro v hv
        rcases List.mem_append.mp hv with hv | hv
        · exact hcur v hv
        · simp only [List.mem_singleton] at hv
          rw [hv]
          omega

theorem splitGo_head (est : String → Nat) (m : Nat) :
    ∀ (us : List String) (i : Nat) (cur : List String), cur ≠ [] →
      ∃ t rest', (splitGo est m i cur us).1 = (cur ++ t) :: rest' := by
  intro us
  induction us with
  | nil =>
    intro i cur hcur
    cases cur with
    | nil => exact absurd rfl hcur
    | cons x xs => exact ⟨[], [], by simp [splitGo]⟩
  | cons u rest ih =>
    intro i cur hcur
    by_cases h1 : m < est u
    · cases cur with
      | nil => exact absurd rfl hcur
      | cons x xs =>
        refine ⟨[], [u] :: (splitGo est m (i + 1) [] rest).1, ?_⟩
        simp [splitGo, if_pos h1]
    · by_cases h2 : m < sumEst est cur + est u
      · cases cur with
        | nil => exact absurd rfl hcur
        | cons x xs =>
          refine ⟨[], (splitGo est m (i + 1) [u] rest).1, ?_⟩
          simp [splitGo, if_neg h1, if_pos h2]
      · obtain ⟨t, rest', ht⟩ := ih (i + 1) (cur ++ [u]) (by simp)
        refine ⟨[u] ++ t, rest', ?_⟩
        simp only [splitGo, if_neg h1, if_neg h2]
        rw [ht]
        simp

theorem splitGo_chain (est : String → Nat) (m : Nat) :
    ∀ (us : List String) (i : Nat) (cur : List String),
      List.Chain' (fun c c' => m < sumEst est c + headTokens est c')
        (splitGo est m i cur us).1 := by
  intro us
  induction us with
  | nil =>
    intro i cur
    cases cur with
    | nil => simp [splitGo]
    | cons x xs => simp [splitGo]
  | cons u rest ih =>
    intro i cur
    by_cases h1 : m < est u
    · have htail : List.Chain' (fun c c' => m < sumEst est c + headTokens est c')
        ([u] :: (splitGo est m (i + 1) [] rest).1) := by
        rw [List.chain'_cons']
        refine ⟨?_, ih (i + 1) []⟩
        intro y _
        have : est u ≤ sumEst est [u] + headTokens est y := by
          simp [sumEst]
        omega
      cases cur with
      | nil => simpa [splitGo, if_pos h1] using htail
      | cons x xs =>
        simp only [splitGo, if_pos h1, List.isEmpty_cons, Bool.false_eq_true,
          if_false, List.cons_append, List.nil_append]
        rw [List.chain'_cons]
        refine ⟨?_, htail⟩
        simp only [headTokens]
        omega
    · by_cases h2 : m < sumEst est cur + est u
      · have hcur : cur ≠ [] := by
          intro h
          rw [h] at h2
          simp only [sumEst, List.map_nil, List.sum_nil, Nat.zero_add] at h2
          exact h1 h2
        obtain ⟨t, rest', ht⟩ := splitGo_head est m rest (i + 1) [u] (by simp)
        cases cur with
        | nil => exact absurd rfl hcur
        | cons x xs =>
          simp only [splitGo, if_neg h1, if_pos h2, List.isEmpty_cons,
            Bool.false_eq_true, if_false, List.cons_append, List.nil_append]
          have := ih (i + 1) [u]
          rw [ht] at this ⊢
          rw [List.chain'_cons]
          refine ⟨?_, this⟩
          simp only [List.cons_append, headTokens]
          omega
      · simp only [splitGo, if_neg h1, if_neg h2]
        exact ih (i + 1) (cur ++ [u])

theorem splitGo_warnings (est : String → Nat) (m : Nat) :
    ∀ (us : List String) (i : Nat) (cur : List String),
      (splitGo est m i cur us).2 =
        ((Utils.withIndicesFrom i us).filter
          (fun p => m < est p.2)).map Prod.fst := by
  intro us
  induction us with
  | nil =>
    intro i cur
    rfl
  | cons u rest ih =>
    intro i cur
    by_cases h1 : m < est u
    · simp only [splitGo, if_pos h1, Utils.withIndicesFrom, List.filter_cons,
        decide_eq_true h1, List.map_cons, if_true]
      rw [ih (i + 1) []]
    · by_cases h2 : m < sumEst est cur + est u
      · simp only [splitGo, if_neg h1, if_pos h2, Utils.withIndicesFrom,
          List.filter_cons, decide_eq_false h1, Bool.false_eq_true, if_false]
        rw [ih (i + 1) [u]]
      · simp only [splitGo, if_neg h1, if_neg h2, Utils.withIndicesFrom,
          List.filter_cons, decide_eq_false h1, Bool.false_eq_true, if_false]
        rw [ih (i + 1) (cur ++ [u])]

end NovelCondensation

namespace NovelCondensation

/-- **C7.** `split_units_for_output_budget` is the greedy in-order
accumulation: (i) every returned chunk of two or more units has total
estimated tokens at most `max_input_tokens`; (ii) chunk boundaries occur
exactly when forced — for adjacent chunks, the first chunk's total plus the
next chunk's first unit estimate exceeds `max_input_tokens`; (iii) any unit
whose own estimate exceeds `max_input_tokens` forms a chunk by itself; and
(iv) the oversize warning is logged exactly for the (0-based) positions of
those oversized units. -/
theorem C7_greedy_split (est : String → Nat) (max_input_tokens : Nat)
    (units : List String) :
    (∀ c ∈ (split_units_for_output_budget est max_input_tokens units).1,
      2 ≤ c.length → sumEst est c ≤ max_input_tokens) ∧
    List.Chain'
      (fun c c' => max_input_tokens < sumEst est c + headTokens est c')
      (split_units_for_output_budget est max_input_tokens units).1 ∧
    (∀ c ∈ (split_units_for_output_budget est max_input_tokens units).1,
      ∀ u ∈ c, max_input_tokens < est u → c = [u]) ∧
    (split_units_for_output_budget est max_input_tokens units).2 =
      ((Utils.withIndicesFrom 0 units).filter
        (fun p => max_input_tokens < est p.2)).map Prod.fst :=
  ⟨splitGo_budget est max_input_tokens units 0 []
      (by simp [sumEst]),
   splitGo_chain est max_input_tokens units 0 [],
   splitGo_oversized est max_input_tokens units 0 [] (by simp),
   splitGo_warnings est max_input_tokens units 0 []⟩

/-- Witness for C7: concrete estimator (string length), budget 5, a unit
stream with one oversized unit. -/
theorem C7_greedy_split_witness :
    (∀ c ∈ (NovelCondensation.split_units_for_output_budget String.length 5
        ["aa", "bb", "cccccc", "dd"]).1,
      2 ≤ c.length → NovelCondensation.sumEst String.length c ≤ 5) ∧
    List.Chain'
      (fun c c' => 5 < NovelCondensation.sumEst String.length c +
        NovelCondensation.headTokens String.length c')
      (NovelCondensation.split_units_for_output_budget String.length 5
        ["aa", "bb", "cccccc", "dd"]).1 ∧
    (∀ c ∈ (NovelCondensation.split_units_for_output_budget String.length 5
        ["aa", "bb", "cccccc", "dd"]).1,
      ∀ u ∈ c, 5 < String.length u → c = [u]) ∧
    (NovelCondensation.split_units_for_output_budget String.length 5
        ["aa", "bb", "cccccc", "dd"]).2 =
      ((Utils.withIndicesFrom 0 ["aa", "bb", "cccccc", "dd"]).filter
        (fun p => 5 < String.length p.2)).map Prod.fst :=
  NovelCondensation.C7_greedy_split String.length 5 ["aa", "bb", "cccccc", "dd"]

/-- **C10.** The chunks returned by `split_units_for_output_budget` form an
ordered partition of the input: concatenating them in order restores the
unit list exactly (nothing dropped, duplicated or reordered), every chunk
is non-empty, and the empty input yields the empty chunk list (and no
warnings) rather than an error. -/
theorem C10_split_partition (est : String → Nat) (max_input_tokens : Nat)
    (units : List String) :
    ((split_units_for_output_budget est max_input_tokens units).1).flatten =
      units ∧
    (∀ c ∈ (split_units_for_output_budget est max_input_tokens units).1,
      c ≠ []) ∧
    split_units_for_output_budget est max_input_tokens [] = ([], []) :=
  ⟨splitGo_join est max_input_tokens units 0 [],
   splitGo_chunks_ne_nil est max_input_tokens units 0 [],
   rfl⟩

/-- Witness for C10 at a concrete input. -/
theorem C10_split_partition_witness :
    ((NovelCondensation.split_units_for_output_budget String.length 5
        ["aa", "bb", "cccccc", "dd"]).1).flatten =
      ["aa", "bb", "cccccc", "dd"] ∧
    (∀ c ∈ (NovelCondensation.split_units_for_output_budget String.length 5
        ["aa", "bb", "cccccc", "dd"]).1, c ≠ []) ∧
    NovelCondensation.split_units_for_output_budget String.length 5 [] =
      ([], []) :=
  NovelCondensation.C10_split_partition String.length 5
    ["aa", "bb", "cccccc", "dd"]

/-- Reading back the per-part files (an association of filename to content)
in a listed filename order, as a downstream consumer reassembling the parts
would. -/
theorem lookup_by_listed_order (parts : List (String × String))
    (hnodup : (parts.map Prod.fst).Nodup) :
    (parts.map Prod.fst).filterMap (fun fn => parts.lookup fn) =
      parts.map Prod.snd := by
  induction parts with
  | nil => rfl
  | cons p rest ih =>
    obtain ⟨fn, c⟩ := p
    simp only [List.map_cons, List.nodup_cons] at hnodup ⊢
    obtain ⟨hnotin, hrest⟩ := hnodup
    rw [List.filterMap_cons]
    simp only [List.lookup_cons_self]
    refine congrArg (c :: ·) ?_
    rw [List.filterMap_congr (fun x hx => ?_), ih hrest]
    have hne : x ≠ fn := fun h => hnotin (h ▸ hx)
    simp [List.lookup_cons, beq_false_of_ne hne]

/-- **C6, counterexample.** For a two-part run, the written manifest's
`parts` field is the *number* `2`, not the list of the two part filenames:
`write_manifest` stores the filename list under the separate `order` key. -/
theorem C6_manifest_counterexample :
    (NovelCondensation.write_manifest
        [("novel.part_001.condensed.txt", "X"),
         ("novel.part_002.condensed.txt", "Y")]
        "output_recursive_reduction").lookup "parts" =
      some (.num 2) ∧
    NovelCondensation.JVal.num 2 ≠
      NovelCondensation.JVal.arr
        ["novel.part_001.condensed.txt", "novel.part_002.condensed.txt"] :=
  ⟨rfl, by decide⟩

/-- **C6, amended.** For every novel-stage run producing `k` parts, the
manifest's `parts` field is the count `k` and its `order` field is the list
of the `k` part filenames in narrative order; reading the named files back
in the listed order and joining them with the `"\n\n"` delimiter reproduces
exactly the combined `novel.condensed.txt` convenience file. -/
theorem C6_manifest_amended (parts : List (String × String))
    (generation_strategy : String)
    (hnodup : (parts.map Prod.fst).Nodup) :
    (NovelCondensation.write_manifest parts generation_strategy).lookup
        "parts" = some (.num parts.length) ∧
    (NovelCondensation.write_manifest parts generation_strategy).lookup
        "order" = some (.arr (parts.map Prod.fst)) ∧
    NovelCondensation.combinedContent parts =
      Utils.joinUnits
        ((parts.map Prod.fst).filterMap (fun fn => parts.lookup fn)) := by
  refine ⟨rfl, rfl, ?_⟩
  rw [NovelCondensation.lookup_by_listed_order parts hnodup]
  rfl

/-- Witness for the amended C6 on a two-part run. -/
theorem C6_manifest_amended_witness :
    (NovelCondensation.write_manifest
        [("novel.part_001.condensed.txt", "X"),
         ("novel.part_002.condensed.txt", "Y")]
        "output_recursive_reduction").lookup "parts" = some (.num 2) ∧
    (NovelCondensation.write_manifest
        [("novel.part_001.condensed.txt", "X"),
         ("novel.part_002.condensed.txt", "Y")]
        "output_recursive_reduction").lookup "order" =
      some (.arr ["novel.part_001.condensed.txt",
        "novel.part_002.condensed.txt"]) ∧
    NovelCondensation.combinedContent
        [("novel.part_001.condensed.txt", "X"),
         ("novel.part_002.condensed.txt", "Y")] =
      Utils.joinUnits
        (((["novel.part_001.condensed.txt", "novel.part_002.condensed.txt"] :
            List String)).filterMap
          (fun fn => [("novel.part_001.condensed.txt", "X"),
            ("novel.part_002.condensed.txt", "Y")].lookup fn)) :=
  C6_manifest_amended
    [("novel.part_001.condensed.txt", "X"),
     ("novel.part_002.condensed.txt", "Y")]
    "output_recursive_reduction" (by decide)

end NovelCondensation

/-- **C9, counterexample.** With 23 condensed chapters upstream the expected
arc count is 3 (`compute_arc_ranges` with `CHAPTERS_PER_ARC = 10`), but with
only 1 persisted arc output `run_pipeline --skip-arcs` proceeds and skips the
stage: `validate_arc_outputs` checks only that at least one arc file exists,
never the expected count, so a count mismatch does not raise for the arc
stage. -/
theorem C9_skip_validation_counterexample :
    RunPipeline.run_pipeline false true false
        ⟨true, true, 23, 23, true, 1, true, true, 7⟩ =
      .ok (.ran, .skippedReuse, .ran) ∧
    (ArcCondensation.compute_arc_ranges
        (List.replicate 23 "chapter") 10).length = 3 ∧
    (1 : Nat) ≠ 3 :=
  ⟨rfl, by decide, by decide⟩

/-- **C9, amended.** What the orchestrator actually validates per stage when
its skip flag is set: the chapter stage raises on a count mismatch between
raw and condensed chapters (and on missing directories or zero counts); the
arc stage validates only that the arc directory exists and holds at least
one arc file — any positive arc count is accepted, with no comparison to the
expected count — and raises otherwise; the novel stage raises when
`novel.condensed.txt` is absent or empty.  Every raise carries the message
telling the user to remove the flag or fix outputs manually. -/
theorem C9_skip_validation_amended :
    (∀ (env : RunPipeline.PipelineEnv) (sa sn : Bool),
      env.rawDirExists = true → env.chaptersDirExists = true →
      0 < env.rawCount → 0 < env.condensedChapterCount →
      env.condensedChapterCount ≠ env.rawCount →
      ∃ msg, RunPipeline.run_pipeline true sa sn env = .error msg) ∧
    (∀ env : RunPipeline.PipelineEnv,
      env.arcsDirExists = false ∨ env.arcCount = 0 →
      ∃ msg, RunPipeline.run_pipeline false true false env = .error msg) ∧
    (∀ env : RunPipeline.PipelineEnv,
      env.arcsDirExists = true → 0 < env.arcCount →
      RunPipeline.run_pipeline false true false env =
        .ok (.ran, .skippedReuse, .ran)) ∧
    (∀ env : RunPipeline.PipelineEnv,
      env.novelDirExists = false ∨ env.novelFileExists = false ∨
        env.novelFileSize = 0 →
      ∃ msg, RunPipeline.run_pipeline false false true env = .error msg) := by
  refine ⟨?_, ?_, ?_, ?_⟩
  · intro env sa sn h1 h2 h3 h4 h5
    have hval : (RunPipeline.validate_chapter_outputs env).1 = false := by
      simp [RunPipeline.validate_chapter_outputs, h1, h2,
        Nat.pos_iff_ne_zero.mp h3, Nat.pos_iff_ne_zero.mp h4, h5]
    apply Exists.intro
    unfold RunPipeline.run_pipeline RunPipeline.stageStep
    rw [hval]
    rfl
  · intro env harc
    have hval : (RunPipeline.validate_arc_outputs env).1 = false := by
      rcases harc with harc | harc
      · simp [RunPipeline.validate_arc_outputs, harc]
      · rcases hdir : env.arcsDirExists with _ | _
        · simp [RunPipeline.validate_arc_outputs, hdir]
        · simp [RunPipeline.validate_arc_outputs, hdir, harc]
    apply Exists.intro
    unfold RunPipeline.run_pipeline RunPipeline.stageStep
    rw [hval]
    rfl
  · intro env harc1 harc2
    have hval : (RunPipeline.validate_arc_outputs env).1 = true := by
      simp [RunPipeline.validate_arc_outputs, harc1,
        Nat.pos_iff_ne_zero.mp harc2]
    unfold RunPipeline.run_pipeline RunPipeline.stageStep
    rw [hval]
    rfl
  · intro env hnov
    have hval : (RunPipeline.validate_novel_outputs env).1 = false := by
      rcases hnov with hnov | hnov | hnov
      · simp [RunPipeline.validate_novel_outputs, hnov]
      · rcases hdir : env.novelDirExists with _ | _
        · simp [RunPipeline.validate_novel_outputs, hdir]
        · simp [RunPipeline.validate_novel_outputs, hdir, hnov]
      · rcases hdir : env.novelDirExists with _ | _
        · simp [RunPipeline.validate_novel_outputs, hdir]
        · rcases hex : env.novelFileExists with _ | _
          · simp [RunPipeline.validate_novel_outputs, hdir, hex]
          · simp [RunPipeline.validate_novel_outputs, hdir, hex, hnov]
    apply Exists.intro
    unfold RunPipeline.run_pipeline RunPipeline.stageStep
    rw [hval]
    rfl

/-- Witness for the amended C9: a 23-raw/22-condensed chapter mismatch with
`--skip-chapters` raises. -/
theorem C9_skip_validation_amended_witness :
    ∃ msg, RunPipeline.run_pipeline true false false
        ⟨true, true, 23, 22, true, 3, true, true, 7⟩ = .error msg :=
  C9_skip_validation_amended.1 ⟨true, true, 23, 22, true, 3, true, true, 7⟩
    false false rfl rfl (by decide) (by decide) (by decide)

/-- On a fresh store (no persisted outputs), the chapter stage invokes the
compressor exactly once per chapter. -/
theorem ChapterCondensation.fresh_calls (compress : String → String) :
    ∀ texts : List String,
      (ChapterCondensation.process_novel compress
        (texts.map (fun f => (f, none)))).2 = texts.length := by
  intro texts
  induction texts with
  | nil => rfl
  | cons t rest ih =>
    simp only [List.map_cons, ChapterCondensation.process_novel,
      List.length_cons]
    rw [show ChapterCondensation.chapterDone none = false from rfl]
    simp only [Bool.false_eq_true, if_false]
    rw [ih]

/-- **C5, counterexample.** In the claim's scenario — 3 condensed arcs whose
merged text exceeds the budget, group size 10, condensed output fitting the
budget — the novel reduction makes *two* compressor calls, not one: the
single recursive-layer group call on the merged arcs, and then the base-case
call on that group's output.  The whole run therefore makes 23 + 3 + 2 = 28
calls, not 27. -/
theorem C5_call_count_counterexample :
    ¬ String.length "aaaa\n\nbbbb\n\ncccc" ≤ 5 ∧
    String.length ((fun _ => "x") "aaaa\n\nbbbb\n\ncccc") ≤ 5 ∧
    (Utils.reduce_until_fit String.length (fun _ => "x") 5 10 3
        ["aaaa", "bbbb", "cccc"]).2.1.length = 2 ∧
    (2 : Nat) ≠ 1 := by
  decide

/-- **C5, amended.** For 23 chapter units and group size 10 the arc stage
produces exactly 3 arcs of sizes 10, 10 and 3 (indices 1, 2, 3); a fresh
chapter stage makes 23 compressor calls and a fresh arc stage 3; and for
3 condensed arcs whose merged text exceeds the budget while the condensed
group output fits, the novel reduction performs one recursive layer that
groups all 3 arcs into one group and then one base-case call, i.e. exactly
2 calls, the base-case output (the compressor applied to the group call's
output) becoming the final novel text — 23 + 3 + 2 = 28 compressor calls
in total. -/
theorem C5_call_count_amended (files : List String) (h23 : files.length = 23)
    (est : String → Nat) (condense_fn : String → String)
    (arcs : List String) (max_tokens fuel : Nat)
    (h3 : arcs.length = 3)
    (hbig : ¬ est (Utils.joinUnits arcs) ≤ max_tokens)
    (hfit : est (condense_fn (Utils.joinUnits arcs)) ≤ max_tokens)
    (hfuel : 1 ≤ fuel) :
    ((ArcCondensation.compute_arc_ranges files 10).map
        (fun p => (p.1, p.2.length)) = [(1, 10), (2, 10), (3, 3)]) ∧
    (ChapterCondensation.process_novel condense_fn
        (files.map (fun f => (f, none)))).2 = 23 ∧
    ArcCondensation.arcCompressorCalls
        (ArcCondensation.compute_arc_ranges files 10) [] = 3 ∧
    (Utils.reduce_until_fit est condense_fn max_tokens 10 fuel arcs).2.1 =
      [Utils.joinUnits arcs, condense_fn (Utils.joinUnits arcs)] ∧
    (Utils.reduce_until_fit est condense_fn max_tokens 10 fuel arcs).1 =
      .ok (condense_fn (condense_fn (Utils.joinUnits arcs))) ∧
    23 + 3 + 2 = 28 := by
  have hne1 : files ≠ [] := by
    intro h
    rw [h] at h23
    simp at h23
  have e1 := Utils.chunksOf_cons 10 (by omega) files hne1
  have hlen2 : (files.drop 10).length = 13 := by
    simp [List.length_drop, h23]
  have hne2 : files.drop 10 ≠ [] := by
    intro h
    rw [h] at hlen2
    simp at hlen2
  have e2 := Utils.chunksOf_cons 10 (by omega) (files.drop 10) hne2
  have hlen3 : ((files.drop 10).drop 10).length = 3 := by
    simp [List.length_drop, h23]
  have hne3 : (files.drop 10).drop 10 ≠ [] := by
    intro h
    rw [h] at hlen3
    simp at hlen3
  have e3 := Utils.chunksOf_cons 10 (by omega) ((files.drop 10).drop 10) hne3
  have e4 : ((files.drop 10).drop 10).drop 10 = [] :=
    List.drop_eq_nil_of_le (by omega)
  have echunks : Utils.chunksOf 10 files =
      [files.take 10, (files.drop 10).take 10,
        ((files.drop 10).drop 10).take 10] := by
    rw [e1, e2, e3, e4, Utils.chunksOf_nil]
  have harcs : (ArcCondensation.compute_arc_ranges files 10).map
      (fun p => (p.1, p.2.length)) = [(1, 10), (2, 10), (3, 3)] := by
    rw [ArcCondensation.compute_arc_ranges, echunks]
    simp [Utils.withIndicesFrom, List.length_take, h23, hlen2, hlen3]
  refine ⟨harcs, ?_, ?_, ?_, ?_, rfl⟩
  · rw [ChapterCondensation.fresh_calls condense_fn files, h23]
  · rw [ArcCondensation.arcCompressorCalls, ArcCondensation.missing_arc_indices,
      ArcCondensation.compute_arc_ranges, echunks]
    rfl
  all_goals {
    obtain ⟨fuel'', rfl⟩ : ∃ k, fuel = k + 1 := ⟨fuel - 1, by omega⟩
    have hnearcs : ¬ arcs = [] := by
      intro h
      rw [h] at h3
      simp at h3
    have hchunk : Utils.chunksOf 10 arcs = [arcs] := by
      rw [Utils.chunksOf_cons 10 (by omega) arcs hnearcs,
        List.drop_eq_nil_of_le (by omega), Utils.chunksOf_nil,
        List.take_of_length_le (by omega)]
    rw [Utils.reduce_until_fit_step est condense_fn max_tokens 10 arcs hnearcs
      hbig fuel'']
    simp only [hchunk, List.map_cons, List.map_nil]
    rw [Utils.reduce_until_fit_base est condense_fn max_tokens 10
      [condense_fn (Utils.joinUnits arcs)] (by simp) hfit fuel'']
    rfl
  }

/-- Witness for the amended C5 with a fully concrete scenario. -/
theorem C5_call_count_amended_witness :
    ((ArcCondensation.compute_arc_ranges (List.replicate 23 "f") 10).map
        (fun p => (p.1, p.2.length)) = [(1, 10), (2, 10), (3, 3)]) ∧
    (ChapterCondensation.process_novel (fun _ => "x")
        ((List.replicate 23 "f").map (fun f => (f, none)))).2 = 23 ∧
    ArcCondensation.arcCompressorCalls
        (ArcCondensation.compute_arc_ranges (List.replicate 23 "f") 10) []
      = 3 ∧
    (Utils.reduce_until_fit String.length (fun _ => "x") 5 10 1
        ["aaaa", "bbbb", "cccc"]).2.1 =
      [Utils.joinUnits ["aaaa", "bbbb", "cccc"],
        (fun _ => "x") (Utils.joinUnits ["aaaa", "bbbb", "cccc"])] ∧
    (Utils.reduce_until_fit String.length (fun _ => "x") 5 10 1
        ["aaaa", "bbbb", "cccc"]).1 =
      .ok ((fun _ => "x")
        ((fun _ => "x") (Utils.joinUnits ["aaaa", "bbbb", "cccc"]))) ∧
    23 + 3 + 2 = 28 :=
  C5_call_count_amended (List.replicate 23 "f") (by decide) String.length
    (fun _ => "x") ["aaaa", "bbbb", "cccc"] 5 1 (by decide) (by decide)
    (by decide) (by decide)

section SanityChecks

example : Utils.joinUnits ["A", "B", "C"] = "A\n\nB\n\nC" := by rfl

example : Utils.chunksOf 2 [1, 2, 3, 4, 5] = [[1, 2], [3, 4], [5]] := by decide

example :
    Utils.reduce_until_fit String.length id 100 2 3 ["A", "B", "C", "D", "E"] =
      (.ok "A\n\nB\n\nC\n\nD\n\nE", ["A\n\nB\n\nC\n\nD\n\nE"], 0) := by
  decide

example :
    Utils.reduce_until_fit String.length (fun _ => "x") 5 10 3
      ["aaaa", "bbbb", "cccc"] =
      (.ok "x", ["aaaa\n\nbbbb\n\ncccc", "x"], 1) := by
  decide

example :
    (NovelCondensation.split_units_for_output_budget String.length 5
      ["aa", "bb", "cccccc", "dd"]) =
      ([["aa", "bb"], ["cccccc"], ["dd"]], [2]) := by decide

example :
    (ArcCondensation.compute_arc_ranges ["a", "b", "c", "d", "e"] 2).map
      (fun p => (p.1, p.2.length)) = [(1, 2), (2, 2), (3, 1)] := by decide

example :
    ChapterCondensation.process_novel (fun _ => "x")
      [("c1", none), ("c2", some "done"), ("c3", some "")] =
      ([some "x", some "done", some "x"], 2) := by decide

example :
    RunPipeline.run_pipeline false true false
      ⟨true, true, 23, 23, true, 1, true, true, 7⟩ =
      .ok (.ran, .skippedReuse, .ran) := by rfl

end SanityChecks
